import Mathlib

/-!
Shallow embedding of the lithops job-construction, future/result and cleanup
layers (`lithops/executors.py`, `lithops/job/job.py`), with theorems settling
the specification claims about them.

Python strings are modelled as `List Char`; Python nonnegative ints as `Nat`
(as `Int` where subtraction may go below zero); Python `None` as `Option`.
-/

namespace Lithops

/-- Python strings, modelled as lists of characters. -/
abbrev Str := List Char

/-- Lithops mode constant `SERVERLESS` (from `lithops.constants`). -/
def SERVERLESS : Str := "serverless".data

/-- Lithops mode constant `STANDALONE` (from `lithops.constants`). -/
def STANDALONE : Str := "standalone".data

/-- Lithops mode constant `LOCALHOST` (from `lithops.constants`). -/
def LOCALHOST : Str := "localhost".data

/-- Python `a or b` for an optional nonnegative int `a`: `None` and `0` are
falsy, any other value is returned unchanged. -/
def pyOrNat : Option Nat → Nat → Nat
  | none, d => d
  | some 0, d => d
  | some n, _ => n

/-- Python `a or b` for an optional int `a`: `None` and `0` are falsy. -/
def pyOrInt : Option Int → Int → Int
  | none, d => d
  | some a, d => if a = 0 then d else a

/-- Decimal rendering of a nonnegative integer, as Python `str(n)`. -/
def digitChars (n : Nat) : List Char :=
  if h : n < 10 then [Char.ofNat (48 + n)]
  else digitChars (n / 10) ++ [Char.ofNat (48 + n % 10)]
decreasing_by exact Nat.div_lt_self (by omega) (by omega)

/-- Python `s.zfill(width)`: left-pad with character 0 up to `width`. -/
def zfill (s : Str) (width : Nat) : Str :=
  List.replicate (width - s.length) (Char.ofNat 48) ++ s

/-- Numeric value of a decimal digit character. -/
def digitVal (c : Char) : Nat := c.toNat - 48

/-- Parse a digit string with accumulator `a` (left fold, base 10). -/
def parseFrom (a : Nat) (l : List Char) : Nat :=
  l.foldl (fun acc c => acc * 10 + digitVal c) a

/-- `FunctionExecutor._create_job_id` (executors.py lines 155-158): render the
`total_jobs` counter zero-padded to width 3, bump the counter, and prepend the
call-type tag. Returns the job id and the new counter. -/
def _create_job_id (call_type : Str) (total_jobs : Nat) : Str × Nat :=
  (call_type ++ zfill (digitChars total_jobs) 3, total_jobs + 1)

/-- The job ids produced by a session issuing the given call-type tags in
order, starting from counter value `total_jobs` (each call goes through
`_create_job_id`, which bumps the counter). -/
def runJobIds (total_jobs : Nat) : List Str → List Str
  | [] => []
  | t :: ts =>
    let r := _create_job_id t total_jobs
    r.1 :: runJobIds r.2 ts

/-- Modelled from the spec: `create_job_key` from `lithops.storage.utils` is
not under src; the spec states `jobKey = executorId+jobId`, the concatenation
of the executor id and the job id. -/
def create_job_key (executor_id job_id : Str) : Str :=
  executor_id ++ job_id

-- Basic facts about the digit machinery.

theorem digitChars_small (n : Nat) (h : n < 10) :
    digitChars n = [Char.ofNat (48 + n)] := by
  rw [digitChars]; simp [h]

theorem digitChars_large (n : Nat) (h : ¬ n < 10) :
    digitChars n = digitChars (n / 10) ++ [Char.ofNat (48 + n % 10)] := by
  conv_lhs => rw [digitChars]
  simp [h]

theorem digitVal_ofNat (m : Nat) (h : m < 10) :
    digitVal (Char.ofNat (48 + m)) = m := by
  interval_cases m <;> decide

theorem parseFrom_append (a : Nat) (l₁ l₂ : List Char) :
    parseFrom a (l₁ ++ l₂) = parseFrom (parseFrom a l₁) l₂ := by
  simp [parseFrom, List.foldl_append]

theorem parseFrom_digitChars (n : Nat) :
    ∀ a : Nat, parseFrom a (digitChars n) = a * 10 ^ (digitChars n).length + n := by
  induction n using Nat.strong_induction_on with
  | _ n ih =>
    intro a
    by_cases h : n < 10
    · rw [digitChars_small n h]
      simp [parseFrom, digitVal_ofNat n h]
    · rw [digitChars_large n h]
      rw [parseFrom_append]
      have hd : n / 10 < n := Nat.div_lt_self (by omega) (by omega)
      rw [ih (n / 10) hd]
      simp [parseFrom, digitVal_ofNat (n % 10) (Nat.mod_lt n (by omega))]
      rw [pow_succ]
      have := Nat.div_add_mod n 10
      ring_nf
      omega

theorem parseFrom_replicate_zero (k : Nat) (l : List Char) :
    parseFrom 0 (List.replicate k (Char.ofNat 48) ++ l) = parseFrom 0 l := by
  induction k with
  | zero => simp
  | succ k ih =>
    rw [List.replicate_succ, List.cons_append]
    show parseFrom (0 * 10 + digitVal (Char.ofNat 48)) _ = _
    simpa [digitVal] using ih

theorem parse_zfill_digitChars (n : Nat) (w : Nat) :
    parseFrom 0 (zfill (digitChars n) w) = n := by
  rw [zfill, parseFrom_replicate_zero]
  simpa using parseFrom_digitChars n 0

/-- The padded decimal rendering is injective: equal padded strings for the
same width come from equal counters. -/
theorem zfill_digitChars_injective (n m w : Nat)
    (h : zfill (digitChars n) w = zfill (digitChars m) w) : n = m := by
  have hn := parse_zfill_digitChars n w
  have hm := parse_zfill_digitChars m w
  rw [h] at hn
  omega

theorem runJobIds_length (n : Nat) (tags : List Str) :
    (runJobIds n tags).length = tags.length := by
  induction tags generalizing n with
  | nil => rfl
  | cons t ts ih => simp [runJobIds, _create_job_id, ih]

theorem runJobIds_getElem (tags : List Str) (n : Nat) (i : Nat)
    (hi : i < tags.length) (hi2 : i < (runJobIds n tags).length) :
    (runJobIds n tags)[i] = tags[i] ++ zfill (digitChars (n + i)) 3 := by
  induction tags generalizing n i with
  | nil => simp at hi
  | cons t ts ih =>
    cases i with
    | zero => simp [runJobIds, _create_job_id]
    | succ j =>
      have hj : j < ts.length := by simpa using hi
      have hj2 : j < (runJobIds (n + 1) ts).length := by
        rw [runJobIds_length]; exact hj
      have hrec := ih (n + 1) j hj hj2
      simp only [runJobIds, _create_job_id, List.getElem_cons_succ]
      rw [show n + (j + 1) = n + 1 + j by omega]
      exact hrec

theorem create_job_key_injective (eid : Str) :
    Function.Injective (create_job_key eid) := by
  intro a b h
  exact List.append_cancel_left h

theorem runJobIds_nodup (tags : List Str) (n : Nat)
    (htags : ∀ t ∈ tags, t.length = 1) : (runJobIds n tags).Nodup := by
  rw [List.nodup_iff_injective_get]
  rintro ⟨i, hi⟩ ⟨j, hj⟩ h
  simp only [List.get_eq_getElem] at h
  have hi' : i < tags.length := by rwa [runJobIds_length] at hi
  have hj' : j < tags.length := by rwa [runJobIds_length] at hj
  rw [runJobIds_getElem tags n i hi' hi, runJobIds_getElem tags n j hj' hj] at h
  obtain ⟨a, ha⟩ := List.length_eq_one.mp (htags tags[i] (List.getElem_mem hi'))
  obtain ⟨b, hb⟩ := List.length_eq_one.mp (htags tags[j] (List.getElem_mem hj'))
  rw [ha, hb] at h
  simp only [List.cons_append, List.nil_append, List.cons.injEq] at h
  have := zfill_digitChars_injective (n + i) (n + j) 3 h.2
  simp only [Fin.mk.injEq]
  omega

/-- **C8.** Within one executor session, every `_create_job_id` call returns
the call-type tag followed by the zero-padded value of the `total_jobs`
counter, which it increments; so the i-th call of the session embeds counter
value `n + i` (strictly increasing in `i`), the produced job ids are pairwise
distinct, and the derived `job_key = create_job_key(executor_id, job_id)`
values are pairwise distinct across the session's jobs (tags are the
single-character call-type tags the executor uses). -/
theorem job_ids_unique (eid : Str) (tags : List Str) (n : Nat)
    (htags : ∀ t ∈ tags, t.length = 1) :
    (∀ t m, (_create_job_id t m).2 = m + 1) ∧
    (∀ i (hi : i < tags.length) (hi2 : i < (runJobIds n tags).length),
        (runJobIds n tags)[i] = tags[i] ++ zfill (digitChars (n + i)) 3) ∧
    (runJobIds n tags).Nodup ∧
    ((runJobIds n tags).map (create_job_key eid)).Nodup := by
  refine ⟨fun t m => rfl, fun i hi hi2 => runJobIds_getElem tags n i hi hi2,
    runJobIds_nodup tags n htags, ?_⟩
  exact (runJobIds_nodup tags n htags).map (create_job_key_injective eid)

/-- Witness for C8 at a concrete session: executor id `"abc"`, call tags
`'A'` then `'M'`, counter starting at 0. -/
theorem job_ids_unique_witness :
    ((runJobIds 0 ["A".data, "M".data]).map (create_job_key "abc".data)).Nodup :=
  (job_ids_unique "abc".data ["A".data, "M".data] 0 (by decide)).2.2.2

/-! ## Cleanup coordinator (`FunctionExecutor.clean`, executors.py 492-535) -/

/-- The fields of a future that `FunctionExecutor.clean` inspects
(executors.py lines 519-520). -/
structure CleanFuture where
  executor_id : Str
  job_id : Str
  done : Bool
  deriving DecidableEq, Repr

/-- The `present_jobs` set computed by `FunctionExecutor.clean` (executors.py
lines 519-520): a set comprehension keeping
`create_job_key(f.executor_id, f.job_id)` for each future `f` satisfying
`(f.executor_id.count('-') == 1 and f.done) or force`. -/
def presentJobs (futures : List CleanFuture) (force : Bool) : Finset Str :=
  ((futures.filter
      (fun f => (f.executor_id.count '-' == 1 && f.done) || force)).map
    (fun f => create_job_key f.executor_id f.job_id)).toFinset

/-- The per-executor mutable state read and updated by `clean`: the
`cleaned_jobs` set of already-cleaned job keys (executors.py line 115). -/
structure CleanState where
  cleaned_jobs : Finset Str
  deriving DecidableEq

/-- One call of `FunctionExecutor.clean` over a futures list (executors.py
lines 517-530): compute `present_jobs`, subtract the executor's
`cleaned_jobs` set to obtain `jobs_to_clean`, and if that set is nonempty
hand it to the out-of-band reclaim step and add it to `cleaned_jobs`.
Returns the set handed to the reclaim step and the updated state. -/
def clean (st : CleanState) (futures : List CleanFuture) (force : Bool) :
    Finset Str × CleanState :=
  let present_jobs := presentJobs futures force
  let jobs_to_clean := present_jobs \ st.cleaned_jobs
  if jobs_to_clean = ∅ then (jobs_to_clean, st)
  else (jobs_to_clean, ⟨st.cleaned_jobs ∪ jobs_to_clean⟩)

/-- The final state after a sequence of `clean` calls. -/
def cleanRun (st : CleanState) : List (List CleanFuture × Bool) → CleanState
  | [] => st
  | c :: cs => cleanRun (clean st c.1 c.2).2 cs

theorem clean_fst (st : CleanState) (futures : List CleanFuture) (force : Bool) :
    (clean st futures force).1 = presentJobs futures force \ st.cleaned_jobs := by
  rw [clean]
  split <;> rfl

theorem clean_cleaned_jobs_subset (st : CleanState) (futures : List CleanFuture)
    (force : Bool) : st.cleaned_jobs ⊆ (clean st futures force).2.cleaned_jobs := by
  rw [clean]
  split
  · exact fun a ha => ha
  · exact fun a ha => Finset.mem_union_left _ ha

theorem mem_clean_fst_cleaned (st : CleanState) (futures : List CleanFuture)
    (force : Bool) (k : Str) (hk : k ∈ (clean st futures force).1) :
    k ∈ (clean st futures force).2.cleaned_jobs := by
  rw [clean_fst] at hk
  rw [clean]
  split
  · rename_i h
    rw [h] at hk
    simp at hk
  · exact Finset.mem_union_right _ hk

theorem cleanRun_cleaned_jobs_subset (st : CleanState)
    (calls : List (List CleanFuture × Bool)) :
    st.cleaned_jobs ⊆ (cleanRun st calls).cleaned_jobs := by
  induction calls generalizing st with
  | nil => exact fun a ha => ha
  | cons c cs ih =>
    exact fun a ha => ih _ (clean_cleaned_jobs_subset st c.1 c.2 ha)

theorem mem_cleaned_not_in_clean_fst (st : CleanState) (futures : List CleanFuture)
    (force : Bool) (k : Str) (hk : k ∈ st.cleaned_jobs) :
    k ∉ (clean st futures force).1 := by
  rw [clean_fst]
  simp [hk]

/-- **C5.** Cleaning is idempotent per job: once a job key has been handed to
the reclaim step by one `clean` call, no later `clean` call (after any
intervening sequence of calls) ever puts that key in its `jobs_to_clean` set
again — it is subtracted against the executor's `cleaned_jobs` set. -/
theorem clean_idempotent (st : CleanState)
    (futures₁ : List CleanFuture) (force₁ : Bool)
    (calls : List (List CleanFuture × Bool))
    (futures₂ : List CleanFuture) (force₂ : Bool) (k : Str)
    (hk : k ∈ (clean st futures₁ force₁).1) :
    k ∉ (clean (cleanRun (clean st futures₁ force₁).2 calls) futures₂ force₂).1 := by
  apply mem_cleaned_not_in_clean_fst
  exact cleanRun_cleaned_jobs_subset _ calls
    (mem_clean_fst_cleaned st futures₁ force₁ k hk)

/-- Witness for C5: one done future for job `abc-0/M000`, cleaned twice with
no intervening calls. -/
theorem clean_idempotent_witness :
    create_job_key "abc-0".data "M000".data ∈
        (clean ⟨∅⟩ [⟨"abc-0".data, "M000".data, true⟩] false).1 ∧
      create_job_key "abc-0".data "M000".data ∉
        (clean (cleanRun (clean ⟨∅⟩ [⟨"abc-0".data, "M000".data, true⟩] false).2 [])
          [⟨"abc-0".data, "M000".data, true⟩] false).1 :=
  ⟨by decide, clean_idempotent ⟨∅⟩ [⟨"abc-0".data, "M000".data, true⟩] false []
    [⟨"abc-0".data, "M000".data, true⟩] false _ (by decide)⟩

/-- **C4 counterexample.** The claim states that with `force=False` a job key
is scheduled for cleanup only if *every* future of that job in the given list
is done. The code uses a per-future set comprehension, so one done future
suffices: with futures `[done, not done]` of the same job, the job key is
handed to the reclaim step although the second future is not done. -/
theorem clean_all_done_counterexample :
    ¬ (∀ k ∈ (clean ⟨∅⟩ [⟨"abc-0".data, "M000".data, true⟩,
          ⟨"abc-0".data, "M000".data, false⟩] false).1,
        ∀ f ∈ [(⟨"abc-0".data, "M000".data, true⟩ : CleanFuture),
          ⟨"abc-0".data, "M000".data, false⟩],
          create_job_key f.executor_id f.job_id = k → f.done = true) := by
  decide

/-- **C4 amended.** With `force=False`, a job key enters the `jobs_to_clean`
set handed to the reclaim step iff it is not already cleaned and *at least
one* future of that job in the given list is done and carries an executor id
with exactly one dash; a job all of whose futures in the list are non-done is
not scheduled. -/
theorem clean_jobs_to_clean_mem (st : CleanState) (futures : List CleanFuture)
    (k : Str) :
    k ∈ (clean st futures false).1 ↔
      k ∉ st.cleaned_jobs ∧ ∃ f ∈ futures,
        create_job_key f.executor_id f.job_id = k ∧
        f.executor_id.count '-' = 1 ∧ f.done = true := by
  rw [clean_fst, presentJobs]
  simp only [Finset.mem_sdiff, List.mem_toFinset, List.mem_map, List.mem_filter]
  constructor
  · rintro ⟨⟨f, ⟨hf, hcond⟩, hkey⟩, hnc⟩
    simp only [Bool.or_false, Bool.and_eq_true, beq_iff_eq] at hcond
    exact ⟨hnc, f, hf, hkey, hcond.1, hcond.2⟩
  · rintro ⟨hnc, f, hf, hkey, hcount, hdone⟩
    refine ⟨⟨f, ⟨hf, ?_⟩, hkey⟩, hnc⟩
    simp [hcount, hdone]

/-- Witness for C4 amended: a single done future of job `abc-0/M000` against
an empty cleaned set. -/
theorem clean_jobs_to_clean_mem_witness :
    (create_job_key "abc-0".data "M000".data ∈
        (clean ⟨∅⟩ [⟨"abc-0".data, "M000".data, true⟩] false).1) ↔
      (create_job_key "abc-0".data "M000".data ∉ (∅ : Finset Str) ∧
        ∃ f ∈ [(⟨"abc-0".data, "M000".data, true⟩ : CleanFuture)],
          create_job_key f.executor_id f.job_id =
              create_job_key "abc-0".data "M000".data ∧
            f.executor_id.count '-' = 1 ∧ f.done = true) :=
  clean_jobs_to_clean_mem ⟨∅⟩ [⟨"abc-0".data, "M000".data, true⟩] _

/-! ## Result delivery (`FunctionExecutor.get_result`, executors.py 426-462) -/

/-- The fields of a done future that `get_result` inspects after `wait`
returns: `f.futures` (truthiness of the nested child-futures list),
`f._produce_output`, `f._read`, and the value `f.result(...)` delivers. -/
structure ResFuture (α : Type) where
  nested : Bool
  produce_output : Bool
  was_read : Bool
  value : α
  deriving DecidableEq, Repr

/-- The filter `get_result` applies to the done futures (executors.py line
444): keep futures with no nested child futures and `_produce_output` set. -/
def eligibleDone {α : Type} (fs_done : List (ResFuture α)) : List (ResFuture α) :=
  fs_done.filter (fun f => !f.nested && f.produce_output)

/-- The delivery loop of `get_result` (executors.py lines 445-454) over the
filtered done futures. `fsProvided` is the truthiness of the caller's `fs`
argument: when true every future's result is appended; when false a result is
appended only if `_read` is unset, and `_read` is then set on that future.
Returns the appended results in order and the futures with updated `_read`
flags. -/
def deliverLoop {α : Type} (fsProvided : Bool) :
    List (ResFuture α) → List α × List (ResFuture α)
  | [] => ([], [])
  | f :: rest =>
    let r := deliverLoop fsProvided rest
    if fsProvided then (f.value :: r.1, f :: r.2)
    else if !f.was_read then (f.value :: r.1, { f with was_read := true } :: r.2)
    else (r.1, f :: r.2)

/-- The tail of `get_result` (executors.py lines 459-462): a result list of
length one is unwrapped to the bare value unless the executor's last call was
`map`; otherwise the list is returned. -/
inductive PyResult (α : Type) : Type
  | single (a : α)
  | many (l : List α)
  deriving DecidableEq, Repr

/-- `if len(result) == 1 and self.last_call != 'map': return result[0]` else
`return result` (executors.py lines 459-462). `lastCall` is
`self.last_call` (`None` before any call). -/
def getResultShape {α : Type} (lastCall : Option Str) (result : List α) :
    PyResult α :=
  match result with
  | [a] => if lastCall = some "map".data then .many result else .single a
  | _ => .many result

/-- `FunctionExecutor.get_result` after `wait` has produced the `fs_done`
list: filter to output-producing futures without nested children, run the
delivery loop, and shape the result list (executors.py lines 443-462). -/
def get_result {α : Type} (fsProvided : Bool) (lastCall : Option Str)
    (fs_done : List (ResFuture α)) : PyResult α × List (ResFuture α) :=
  let r := deliverLoop fsProvided (eligibleDone fs_done)
  (getResultShape lastCall r.1, r.2)

theorem deliverLoop_true {α : Type} (l : List (ResFuture α)) :
    deliverLoop true l = (l.map ResFuture.value, l) := by
  induction l with
  | nil => rfl
  | cons f rest ih => simp [deliverLoop, ih]

theorem deliverLoop_false {α : Type} (l : List (ResFuture α)) :
    deliverLoop false l =
      ((l.filter (fun f => !f.was_read)).map ResFuture.value,
        l.map (fun f => { f with was_read := true })) := by
  induction l with
  | nil => rfl
  | cons f rest ih =>
    obtain ⟨fn, fp, fr, fv⟩ := f
    cases fr <;> simp [deliverLoop, ih, List.filter_cons]

/-- **C2 counterexample.** The claim states that a future already marked
`_read` is never re-delivered and every delivered future is marked `_read`,
whether or not the caller passes an explicit futures list. When the caller
does pass one (`fs` truthy), the code appends `f.result(...)` without
consulting or setting `_read`: a single done, already-read, output-producing
future is delivered again and its flags are left unchanged. -/
theorem get_result_reread_counterexample :
    ¬ (∀ fsProvided : Bool,
        (deliverLoop fsProvided [(⟨false, true, true, 7⟩ : ResFuture Nat)]).1 = [] ∧
        (deliverLoop fsProvided [(⟨false, true, false, 7⟩ : ResFuture Nat)]).2 =
          [⟨false, true, true, 7⟩]) := by
  intro h
  exact absurd ((h true).1) (by decide)

/-- **C2 amended.** Only done futures with no nested child futures and
`_produce_output` set are considered. When the caller passes no explicit
futures list, exactly the not-yet-read ones among them are delivered, in
order, and all delivered futures come back marked `_read`; hence a second
such call re-delivers nothing. When the caller passes an explicit futures
list, every considered future is delivered regardless of `_read`, and no
`_read` flag is changed (so an already-read future is re-delivered). -/
theorem get_result_delivery (α : Type) (fs_done : List (ResFuture α)) :
    (deliverLoop false (eligibleDone fs_done)).1 =
        ((eligibleDone fs_done).filter (fun f => !f.was_read)).map ResFuture.value ∧
    (deliverLoop false (eligibleDone fs_done)).2 =
        (eligibleDone fs_done).map (fun f => { f with was_read := true }) ∧
    (deliverLoop false (deliverLoop false (eligibleDone fs_done)).2).1 = [] ∧
    (deliverLoop true (eligibleDone fs_done)).1 =
        (eligibleDone fs_done).map ResFuture.value ∧
    (deliverLoop true (eligibleDone fs_done)).2 = eligibleDone fs_done := by
  refine ⟨by rw [deliverLoop_false], by rw [deliverLoop_false], ?_,
    by rw [deliverLoop_true], by rw [deliverLoop_true]⟩
  rw [deliverLoop_false, deliverLoop_false]
  simp [List.filter_map, Function.comp]

/-- **C7.** A `get_result` call delivering exactly one result returns the
bare value when the executor's last call was not `map`; when the last call
was `map` the (possibly singleton) ordered list is returned; and a call
delivering any other number of results always returns the ordered list. -/
theorem get_result_shape (α : Type) (fsProvided : Bool) (lastCall : Option Str)
    (fs_done : List (ResFuture α)) :
    (∀ a : α, (deliverLoop fsProvided (eligibleDone fs_done)).1 = [a] →
      (lastCall ≠ some "map".data →
          (get_result fsProvided lastCall fs_done).1 = .single a) ∧
      (lastCall = some "map".data →
          (get_result fsProvided lastCall fs_done).1 = .many [a])) ∧
    ((∀ a : α, (deliverLoop fsProvided (eligibleDone fs_done)).1 ≠ [a]) →
      (get_result fsProvided lastCall fs_done).1 =
        .many (deliverLoop fsProvided (eligibleDone fs_done)).1) := by
  constructor
  · intro a hone
    constructor
    · intro hnm
      simp [get_result, hone, getResultShape, hnm]
    · intro hm
      simp [get_result, hone, getResultShape, hm]
  · intro hmany
    rw [get_result]
    match hr : (deliverLoop fsProvided (eligibleDone fs_done)).1 with
    | [] => rfl
    | [a] => exact absurd hr (hmany a)
    | a :: b :: rest => rfl

/-- Witness for C7: one eligible unread future of value 7, last call
`call_async`. -/
theorem get_result_shape_witness :
    (get_result false (some "call_async".data) [(⟨false, true, false, 7⟩ : ResFuture Nat)]).1 =
      .single 7 :=
  ((get_result_shape Nat false (some "call_async".data)
      [⟨false, true, false, 7⟩]).1 7 (by decide)).1 (by decide)

/-! ## Wait exception handling (`FunctionExecutor.wait`, executors.py 362-424) -/

/-- The observable actions `FunctionExecutor.wait` performs around the inner
`lithops.wait.wait` call: `self.invoker.stop()`, the forced
`self.clean(clean_cloudobjects=False, force=True)`, `self.job_monitor.stop`,
`self.compute_handler.clear`, and the regular
`self.clean(clean_cloudobjects=False)`. -/
inductive WaitEvent : Type
  | invokerStop
  | forcedClean
  | monitorStop
  | handlerClear
  | regularClean
  deriving DecidableEq, Repr

/-- The executor flags `wait` consults in its except/finally blocks:
`self.data_cleaner` and `self.is_lithops_worker`. -/
structure WaitCtx where
  data_cleaner : Bool
  is_lithops_worker : Bool
  deriving DecidableEq, Repr

/-- `FunctionExecutor.wait` around the inner `wait` call (executors.py lines
390-415).  The inner call either returns or raises `e`.  On a raise the
except block stops the invoker and, if the data cleaner is enabled and this
is not a lithops worker, triggers the forced cleanup; the `finally` block
(which Python runs before the re-raise propagates) stops the job monitor
and, under the same flags, clears the compute handler and runs a regular
cleanup; then the captured exception propagates.  Returns the ordered
actions performed and the outcome. -/
def waitExceptFlow (ctx : WaitCtx) (innerResult : Except Str Unit) :
    List WaitEvent × Except Str Unit :=
  let cleanupOn := ctx.data_cleaner && !ctx.is_lithops_worker
  let finallyEvents :=
    WaitEvent.monitorStop ::
      (if cleanupOn then [WaitEvent.handlerClear, WaitEvent.regularClean] else [])
  match innerResult with
  | .error e =>
      (WaitEvent.invokerStop ::
          ((if cleanupOn then [WaitEvent.forcedClean] else []) ++ finallyEvents),
        .error e)
  | .ok _ => (finallyEvents, .ok ())

/-- `get_result` calls `self.wait(..., download_results=True)` first
(executors.py line 439), so an exception raised by the inner wait takes
exactly the same path through `get_result`. -/
def getResultWaitFlow (ctx : WaitCtx) (innerResult : Except Str Unit) :
    List WaitEvent × Except Str Unit :=
  waitExceptFlow ctx innerResult

/-- **C6.** When the inner wait raises inside `FunctionExecutor.wait` (hence
also inside `get_result`), the executor stops the invoker and, if the data
cleaner is enabled and it is not running as a lithops worker, performs the
forced cleanup, before re-raising that same exception — and that single
exception is the call's entire failure outcome. -/
theorem wait_exception_flow (ctx : WaitCtx) (e : Str) :
    (waitExceptFlow ctx (.error e)).2 = Except.error e ∧
    WaitEvent.invokerStop ∈ (waitExceptFlow ctx (.error e)).1 ∧
    ((ctx.data_cleaner && !ctx.is_lithops_worker) = true →
      WaitEvent.forcedClean ∈ (waitExceptFlow ctx (.error e)).1) ∧
    getResultWaitFlow ctx (.error e) = waitExceptFlow ctx (.error e) := by
  refine ⟨rfl, ?_, ?_, rfl⟩
  · simp [waitExceptFlow]
  · intro hOn
    simp [waitExceptFlow, hOn]

/-- Witness for C6: data cleaner enabled, not a worker, inner wait raising
`"boom"`. -/
theorem wait_exception_flow_witness :
    (waitExceptFlow ⟨true, false⟩ (.error "boom".data)).2 =
        Except.error "boom".data ∧
      WaitEvent.forcedClean ∈ (waitExceptFlow ⟨true, false⟩ (.error "boom".data)).1 :=
  ⟨(wait_exception_flow ⟨true, false⟩ "boom".data).1,
    (wait_exception_flow ⟨true, false⟩ "boom".data).2.2.1 (by decide)⟩

/-! ## Reduce-job grouping (`create_reduce_job`, job.py 95-134) -/

/-- The slicing loop of `create_reduce_job` (job.py lines 107-111): starting
from `prev_total_partitons = 0`, append the slice
`map_futures[prev_total_partitons:prev_total_partitons+total_partitions]`
for each per-object partition count and advance the offset. -/
def reduceSlices {α : Type} (map_futures : List α) (prev : Nat) :
    List Nat → List (List α)
  | [] => []
  | tp :: rest =>
    (map_futures.drop prev).take tp :: reduceSlices map_futures (prev + tp) rest

/-- The `iterdata` computed by `create_reduce_job` (job.py lines 104-111):
a single entry carrying all map futures, unless the map job carries
`parts_per_object` and `reducer_one_per_object` is set, in which case one
slice of futures per source object. -/
def reduceIterdata {α : Type} (parts_per_object : Option (List Nat))
    (reducer_one_per_object : Bool) (map_futures : List α) : List (List α) :=
  match parts_per_object, reducer_one_per_object with
  | some ppo, true => reduceSlices map_futures 0 ppo
  | _, _ => [map_futures]

theorem reduceSlices_shift {α : Type} (parts : List Nat) (map_futures : List α)
    (prev : Nat) :
    reduceSlices map_futures prev parts =
      reduceSlices (map_futures.drop prev) 0 parts := by
  induction parts generalizing map_futures prev with
  | nil => rfl
  | cons tp rest ih =>
    simp only [reduceSlices, List.drop_zero, Nat.zero_add]
    congr 1
    rw [ih map_futures (prev + tp), ih (map_futures.drop prev) tp,
      List.drop_drop]

theorem reduceSlices_length {α : Type} (parts : List Nat) (map_futures : List α)
    (prev : Nat) :
    (reduceSlices map_futures prev parts).length = parts.length := by
  induction parts generalizing prev with
  | nil => rfl
  | cons tp rest ih => simp [reduceSlices, ih]

theorem reduceSlices_flatten {α : Type} (parts : List Nat) (map_futures : List α) :
    (reduceSlices map_futures 0 parts).flatten = map_futures.take parts.sum := by
  induction parts generalizing map_futures with
  | nil => simp [reduceSlices]
  | cons tp rest ih =>
    simp only [reduceSlices, List.drop_zero, List.flatten_cons, List.sum_cons]
    rw [reduceSlices_shift, Nat.zero_add, ih (map_futures.drop tp), List.take_add]

theorem reduceSlices_lengths {α : Type} (parts : List Nat) (map_futures : List α)
    (hsum : parts.sum ≤ map_futures.length) :
    (reduceSlices map_futures 0 parts).map List.length = parts := by
  induction parts generalizing map_futures with
  | nil => rfl
  | cons tp rest ih =>
    simp only [List.sum_cons] at hsum
    simp only [reduceSlices, List.drop_zero, List.map_cons]
    rw [reduceSlices_shift, Nat.zero_add]
    congr 1
    · rw [List.length_take]
      omega
    · exact ih (map_futures.drop tp) (by simp [List.length_drop]; omega)

/-- **C9.** When the map job carries `parts_per_object` and
`reducer_one_per_object` is set, `create_reduce_job` builds exactly one call
per source object; the i-th call receives the contiguous slice of
`map_futures` whose length is the i-th per-object partition count, and the
slices concatenated in order are exactly the whole `map_futures` list (hence
pairwise disjoint). -/
theorem create_reduce_job_slices (α : Type) (ppo : List Nat)
    (map_futures : List α) (hsum : ppo.sum = map_futures.length) :
    (reduceIterdata (some ppo) true map_futures).length = ppo.length ∧
    (reduceIterdata (some ppo) true map_futures).map List.length = ppo ∧
    (reduceIterdata (some ppo) true map_futures).flatten = map_futures := by
  refine ⟨reduceSlices_length ppo map_futures 0,
    reduceSlices_lengths ppo map_futures (le_of_eq hsum), ?_⟩
  rw [show reduceIterdata (some ppo) true map_futures =
    reduceSlices map_futures 0 ppo from rfl, reduceSlices_flatten, hsum,
    List.take_length]

/-- Witness for C9: three map futures partitioned 2/1 over two source
objects. -/
theorem create_reduce_job_slices_witness :
    (reduceIterdata (some [2, 1]) true [10, 20, 30]).length = 2 ∧
      (reduceIterdata (some [2, 1]) true [10, 20, 30]).map List.length = [2, 1] ∧
      (reduceIterdata (some [2, 1]) true [10, 20, 30]).flatten = [10, 20, 30] :=
  create_reduce_job_slices Nat [2, 1] [10, 20, 30] (by decide)

/-! ## Job construction (`_create_job`, job.py 137-278) -/

/-- Whether the first list is a leading segment of the second. -/
def leadsList : Str → Str → Bool
  | [], _ => true
  | _ :: _, [] => false
  | a :: as, b :: bs => a == b && leadsList as bs

/-- Python `needle in haystack` on strings: substring containment (job.py
line 171 tests `mode in STANDALONE`). -/
def pyInStr (needle hay : Str) : Bool :=
  leadsList needle hay ||
    (match hay with
      | [] => false
      | _ :: t => pyInStr needle t)

/-- One serialized data element as produced by the payload serializer: its
byte length `len(x)` (summed for the data-limit check, job.py line 204) and
the length of its Python `str()` rendering `len(str(x))` (used by the inline
decision, job.py line 226). The payload producer itself is an external
collaborator; the core only measures sizes. -/
structure SerStr where
  len : Nat
  strLen : Nat
  deriving DecidableEq, Repr

/-- The configuration slice `_create_job` reads. `data_limit` is the
explicit `config['lithops']['data_limit']` entry when the key is present.
`max_agg_data_size` stands for the constant `MAX_AGG_DATA_SIZE` and
`faas_backends` for `FAAS_BACKENDS`, both imported from `lithops.constants`
(not under the sources here), kept abstract. -/
structure JobConfig where
  mode : Str
  backend : Str
  chunksize : Nat
  worker_processes : Nat
  execution_timeout : Int
  data_limit : Option Nat
  invoke_pool_threads : Nat
  runtime_memory : Nat
  runtime_timeout : Int
  hard_dismantle_timeout : Int
  customized_runtime : Bool
  faas_backends : List Str
  max_agg_data_size : Nat
  deriving DecidableEq, Repr

/-- The `func_key` stored on a job: the storage key built by
`create_func_key(JOBS_PREFIX, executor_id, job_id)` (job.py line 233), or
the constant `func_key_suffix` used with a customized runtime (job.py line
243); the key-construction helpers live outside the sources here and are
kept abstract. -/
inductive FuncKey : Type
  | storageKey (executor_id job_id : Str)
  | keySuffix
  deriving DecidableEq, Repr

/-- Storage uploads performed by `_create_job`:
`internal_storage.put_func` (job.py line 234) and
`internal_storage.put_data` (job.py line 260). -/
inductive StorageEvent : Type
  | putFunc
  | putData
  deriving DecidableEq, Repr

/-- The byte ranges `utils.agg_data` assigns when concatenating the data
elements (`lithops.utils`, not under the sources here): consecutive
contiguous ranges of the given lengths. No claim depends on its value. -/
def aggRanges (off : Nat) : List Nat → List (Nat × Nat)
  | [] => []
  | l :: ls => (off, off + l) :: aggRanges (off + l) ls

/-- The job namespace built by `_create_job` (job.py lines 150-276),
restricted to the fields the claims are about; fields set only on some paths
are `Option`s. `data_key` holds the `(executor_id, job_id)` pair that
`create_agg_data_key(JOBS_PREFIX, executor_id, job_id)` is built from. -/
structure Job where
  chunksize : Nat
  worker_processes : Nat
  execution_timeout : Int
  executor_id : Str
  job_id : Str
  job_key : Str
  total_calls : Nat
  invoke_pool_threads : Option Nat
  runtime_memory : Option Nat
  runtime_timeout : Option Int
  func_key : FuncKey
  data_key : Option (Str × Str)
  data_byte_ranges : Option (List (Nat × Nat))
  data_byte_strs : Option (List SerStr)
  deriving DecidableEq, Repr

/-- Outcome of `_create_job`: the built job or a raised exception, together
with the storage uploads performed before returning or raising, in order. -/
inductive JobResult : Type
  | ok (job : Job) (events : List StorageEvent)
  | err (msg : String) (events : List StorageEvent)
  deriving DecidableEq, Repr

/-- The mode-dependent execution-timeout clamp of `_create_job` (job.py
lines 164-179): in serverless mode a timeout at or above
`runtime_timeout` becomes `runtime_timeout - 5`; in standalone mode
(`mode in STANDALONE`) one at or above `hard_dismantle_timeout` becomes
`hard_dismantle_timeout - 10`; localhost leaves it unchanged. -/
def clampExecTimeout (cfg : JobConfig) (execT0 : Int) : Int :=
  if cfg.mode = SERVERLESS then
    if execT0 ≥ cfg.runtime_timeout then cfg.runtime_timeout - 5 else execT0
  else if pyInStr cfg.mode STANDALONE then
    if execT0 ≥ cfg.hard_dismantle_timeout then cfg.hard_dismantle_timeout - 10
    else execT0
  else execT0

/-- The inline-versus-upload decision of `_create_job` (job.py line 226):
`upload_data = not (len(str(data_strs[0])) * job.chunksize < 8*1204 and
backend in FAAS_BACKENDS)`; note `8*1204 = 9632`. -/
def uploadData (cfg : JobConfig) (d0 : SerStr) (chunksizeV : Nat) : Bool :=
  ! (decide (d0.strLen * chunksizeV < 8 * 1204) &&
      decide (cfg.backend ∈ cfg.faas_backends))

/-- `_create_job` (job.py lines 137-278) over the serialized sizes of the
job's data elements. `dataStrs` is the serializer's `data_strs` (one entry
per element of `iterdata`, so `total_calls = len(iterdata) =
len(data_strs)`). The function resolves argument-or-config values, applies
the mode-dependent resource and timeout rules, checks the data limit
(raising before any upload), decides the transport of the data, performs
the uploads, and returns the job. -/
def _create_job (cfg : JobConfig) (executor_id job_id : Str)
    (dataStrs : List SerStr) (execution_timeout : Option Int)
    (chunksize worker_processes runtime_memory invoke_pool_threads : Option Nat) :
    JobResult :=
  let chunksizeV := pyOrNat chunksize cfg.chunksize
  let worker_processesV := pyOrNat worker_processes cfg.worker_processes
  let execT0 := pyOrInt execution_timeout cfg.execution_timeout
  let job_key := create_job_key executor_id job_id
  let total_calls := dataStrs.length
  let iptV : Option Nat :=
    if cfg.mode = SERVERLESS then
      some (pyOrNat invoke_pool_threads cfg.invoke_pool_threads)
    else none
  let runtime_memoryV : Option Nat :=
    if cfg.mode = SERVERLESS then some (pyOrNat runtime_memory cfg.runtime_memory)
    else none
  let runtime_timeoutV : Option Int :=
    if cfg.mode = SERVERLESS then some cfg.runtime_timeout
    else if pyInStr cfg.mode STANDALONE then none
    else if cfg.mode = LOCALHOST then execution_timeout
    else none
  let execT := clampExecTimeout cfg execT0
  let data_size_bytes := (dataStrs.map SerStr.len).sum
  let data_limit :=
    match cfg.data_limit with
    | some dl => dl
    | none => cfg.max_agg_data_size
  if data_limit ≠ 0 ∧ data_size_bytes > data_limit * 1024 ^ 2 then
    .err "Total data exceeded maximum size" []
  else
    let upload_function := ! cfg.customized_runtime
    match dataStrs with
    | [] => .err "IndexError: data_strs is empty" []
    | d0 :: rest =>
      let upload_data := uploadData cfg d0 chunksizeV
      let func_key : FuncKey :=
        if upload_function then .storageKey executor_id job_id else .keySuffix
      let funcEvents := if upload_function then [StorageEvent.putFunc] else []
      let data_key : Option (Str × Str) :=
        if upload_data then some (executor_id, job_id) else none
      let data_byte_ranges : Option (List (Nat × Nat)) :=
        if upload_data then some (aggRanges 0 ((d0 :: rest).map SerStr.len))
        else none
      let data_byte_strs : Option (List SerStr) :=
        if upload_data then none else some (d0 :: rest)
      let dataEvents := if upload_data then [StorageEvent.putData] else []
      .ok
        { chunksize := chunksizeV
          worker_processes := worker_processesV
          execution_timeout := execT
          executor_id := executor_id
          job_id := job_id
          job_key := job_key
          total_calls := total_calls
          invoke_pool_threads := iptV
          runtime_memory := runtime_memoryV
          runtime_timeout := runtime_timeoutV
          func_key := func_key
          data_key := data_key
          data_byte_ranges := data_byte_ranges
          data_byte_strs := data_byte_strs }
        (funcEvents ++ dataEvents)

/-- Modelled from the spec: the Invoker (`runJob`, outside job construction)
"dispatches one Task per Call"; when job construction raises, `run_job` is
never reached and no task is submitted. Counts the backend submissions
resulting from one build-then-dispatch request. -/
def submissionCount (r : JobResult) : Nat :=
  match r with
  | .ok job _ => job.total_calls
  | .err _ _ => 0

/-- The effective data limit: the explicit `data_limit` config entry when
present, else `MAX_AGG_DATA_SIZE` (job.py lines 215-218). -/
def effectiveDataLimit (cfg : JobConfig) : Nat :=
  match cfg.data_limit with
  | some dl => dl
  | none => cfg.max_agg_data_size

theorem create_job_eval (cfg : JobConfig) (eid jid : Str) (d0 : SerStr)
    (rest : List SerStr) (eT : Option Int) (cs wp rm ipt : Option Nat)
    (hlim : ¬ (effectiveDataLimit cfg ≠ 0 ∧
      ((d0 :: rest).map SerStr.len).sum > effectiveDataLimit cfg * 1024 ^ 2)) :
    _create_job cfg eid jid (d0 :: rest) eT cs wp rm ipt =
      .ok
        { chunksize := pyOrNat cs cfg.chunksize
          worker_processes := pyOrNat wp cfg.worker_processes
          execution_timeout := clampExecTimeout cfg (pyOrInt eT cfg.execution_timeout)
          executor_id := eid
          job_id := jid
          job_key := create_job_key eid jid
          total_calls := (d0 :: rest).length
          invoke_pool_threads :=
            if cfg.mode = SERVERLESS then some (pyOrNat ipt cfg.invoke_pool_threads)
            else none
          runtime_memory :=
            if cfg.mode = SERVERLESS then some (pyOrNat rm cfg.runtime_memory)
            else none
          runtime_timeout :=
            if cfg.mode = SERVERLESS then some cfg.runtime_timeout
            else if pyInStr cfg.mode STANDALONE then none
            else if cfg.mode = LOCALHOST then eT
            else none
          func_key :=
            if ! cfg.customized_runtime then .storageKey eid jid else .keySuffix
          data_key :=
            if uploadData cfg d0 (pyOrNat cs cfg.chunksize) then some (eid, jid)
            else none
          data_byte_ranges :=
            if uploadData cfg d0 (pyOrNat cs cfg.chunksize) then
              some (aggRanges 0 ((d0 :: rest).map SerStr.len))
            else none
          data_byte_strs :=
            if uploadData cfg d0 (pyOrNat cs cfg.chunksize) then none
            else some (d0 :: rest) }
        ((if ! cfg.customized_runtime then [StorageEvent.putFunc] else []) ++
          (if uploadData cfg d0 (pyOrNat cs cfg.chunksize) then
            [StorageEvent.putData] else [])) := by
  rw [_create_job]
  rw [if_neg (by exact hlim)]

/-- **C1.** A job build whose aggregated serialized data size exceeds the
configured (nonzero) data limit — the explicit `data_limit` entry when
present, else the default maximum — raises before any storage upload of
function or data: the result is an exception with an empty upload trace, and
the submission count of the request stays zero. -/
theorem create_job_data_limit (cfg : JobConfig) (eid jid : Str)
    (dataStrs : List SerStr) (eT : Option Int) (cs wp rm ipt : Option Nat)
    (hlimit : effectiveDataLimit cfg ≠ 0)
    (hover : (dataStrs.map SerStr.len).sum > effectiveDataLimit cfg * 1024 ^ 2) :
    _create_job cfg eid jid dataStrs eT cs wp rm ipt =
        .err "Total data exceeded maximum size" [] ∧
      submissionCount (_create_job cfg eid jid dataStrs eT cs wp rm ipt) = 0 := by
  have h : _create_job cfg eid jid dataStrs eT cs wp rm ipt =
      .err "Total data exceeded maximum size" [] := by
    rw [_create_job]
    rw [if_pos ⟨hlimit, hover⟩]
  exact ⟨h, by rw [h]; rfl⟩

/-- Witness for C1: explicit `data_limit` of 1 MB with a single serialized
element of 1024² + 1 bytes. -/
theorem create_job_data_limit_witness :
    submissionCount
      (_create_job
        ⟨SERVERLESS, "aws_lambda".data, 1, 1, 600, some 1, 64, 256, 300, 7200,
          false, ["aws_lambda".data], 4⟩
        "abc-0".data "M000".data [⟨1048577, 10⟩] none none none none none) = 0 :=
  (create_job_data_limit
    ⟨SERVERLESS, "aws_lambda".data, 1, 1, 600, some 1, 64, 256, 300, 7200,
      false, ["aws_lambda".data], 4⟩
    "abc-0".data "M000".data [⟨1048577, 10⟩] none none none none none
    (by decide) (by decide)).2

theorem create_job_ok_execution_timeout (cfg : JobConfig) (eid jid : Str)
    (dataStrs : List SerStr) (eT : Option Int) (cs wp rm ipt : Option Nat)
    (job : Job) (events : List StorageEvent)
    (hok : _create_job cfg eid jid dataStrs eT cs wp rm ipt = .ok job events) :
    job.execution_timeout = clampExecTimeout cfg (pyOrInt eT cfg.execution_timeout) := by
  simp only [_create_job] at hok
  split at hok
  · exact JobResult.noConfusion hok
  · split at hok
    · exact JobResult.noConfusion hok
    · injection hok with h1 h2
      rw [← h1]

/-- **C3.** For a job built in serverless mode, a requested execution
timeout at or above the backend's `runtime_timeout` is clamped to
`runtime_timeout - 5`; in standalone mode, one at or above
`hard_dismantle_timeout` is clamped to `hard_dismantle_timeout - 10`; in
both modes the returned job's execution timeout is strictly below the
applicable runtime timeout. -/
theorem create_job_timeout_clamp (cfg : JobConfig) (eid jid : Str)
    (dataStrs : List SerStr) (eT : Option Int) (cs wp rm ipt : Option Nat)
    (job : Job) (events : List StorageEvent)
    (hok : _create_job cfg eid jid dataStrs eT cs wp rm ipt = .ok job events) :
    (cfg.mode = SERVERLESS →
      job.execution_timeout < cfg.runtime_timeout ∧
      (pyOrInt eT cfg.execution_timeout ≥ cfg.runtime_timeout →
        job.execution_timeout = cfg.runtime_timeout - 5)) ∧
    (cfg.mode = STANDALONE →
      job.execution_timeout < cfg.hard_dismantle_timeout ∧
      (pyOrInt eT cfg.execution_timeout ≥ cfg.hard_dismantle_timeout →
        job.execution_timeout = cfg.hard_dismantle_timeout - 10)) := by
  have hT := create_job_ok_execution_timeout cfg eid jid dataStrs eT cs wp rm
    ipt job events hok
  rw [clampExecTimeout] at hT
  constructor
  · intro hm
    rw [if_pos hm] at hT
    refine ⟨by rw [hT]; split <;> omega, fun hge => by rw [hT, if_pos hge]⟩
  · intro hm
    have hns : ¬ (cfg.mode = SERVERLESS) := by rw [hm]; decide
    have hst : pyInStr cfg.mode STANDALONE = true := by rw [hm]; decide
    rw [if_neg hns, if_pos hst] at hT
    refine ⟨by rw [hT]; split <;> omega, fun hge => by rw [hT, if_pos hge]⟩

/-- A concrete serverless configuration used by witnesses: backend
`aws_lambda` (a FaaS backend), chunksize 1, execution timeout 600, runtime
timeout 300, no explicit data limit (default 4 MB). -/
def sampleCfg : JobConfig :=
  ⟨SERVERLESS, "aws_lambda".data, 1, 1, 600, none, 64, 256, 300, 7200, false,
    ["aws_lambda".data], 4⟩

/-- The job `_create_job` builds from `sampleCfg` for a single 4-byte data
element of str-length 10: the timeout 600 is clamped to 295 and the data is
kept inline. -/
def sampleJob : Job :=
  ⟨1, 1, 295, "abc-0".data, "M000".data,
    create_job_key "abc-0".data "M000".data, 1, some 64, some 256, some 300,
    .storageKey "abc-0".data "M000".data, none, none, some [⟨4, 10⟩]⟩

/-- Witness for C3: under `sampleCfg` the requested timeout 600 exceeds the
runtime timeout 300 and the built job's execution timeout is below it. -/
theorem create_job_timeout_clamp_witness :
    sampleJob.execution_timeout < sampleCfg.runtime_timeout :=
  ((create_job_timeout_clamp sampleCfg "abc-0".data "M000".data [⟨4, 10⟩]
    none none none none none sampleJob [StorageEvent.putFunc]
    (by decide)).1 rfl).1

theorem uploadData_eq_false_iff (cfg : JobConfig) (d0 : SerStr) (c : Nat) :
    uploadData cfg d0 c = false ↔
      d0.strLen * c < 8 * 1204 ∧ cfg.backend ∈ cfg.faas_backends := by
  simp [uploadData]

theorem create_job_ok_data_fields (cfg : JobConfig) (eid jid : Str)
    (d0 : SerStr) (rest : List SerStr) (eT : Option Int)
    (cs wp rm ipt : Option Nat) (job : Job) (events : List StorageEvent)
    (hok : _create_job cfg eid jid (d0 :: rest) eT cs wp rm ipt = .ok job events) :
    job.data_key =
        (if uploadData cfg d0 (pyOrNat cs cfg.chunksize) then some (eid, jid)
          else none) ∧
      job.data_byte_ranges =
        (if uploadData cfg d0 (pyOrNat cs cfg.chunksize) then
          some (aggRanges 0 ((d0 :: rest).map SerStr.len)) else none) ∧
      job.data_byte_strs =
        (if uploadData cfg d0 (pyOrNat cs cfg.chunksize) then none
          else some (d0 :: rest)) := by
  simp only [_create_job] at hok
  split at hok
  · exact JobResult.noConfusion hok
  · injection hok with h1 h2
    rw [← h1]
    exact ⟨rfl, rfl, rfl⟩

/-- **C10.** The inline-versus-upload decision of a job build inspects only
the serialized `str`-length of the first data element: data is kept inline
(`data_key = None`) exactly when the backend is a FaaS backend and that
length times the job's chunksize is below `8*1204` (= 9632); when inline,
`data_byte_ranges` is also `None` and `data_byte_strs` holds all serialized
elements; and replacing the remaining elements by any others never changes
the decision. -/
theorem create_job_inline_decision (cfg : JobConfig) (eid jid : Str)
    (d0 : SerStr) (rest : List SerStr) (eT : Option Int)
    (cs wp rm ipt : Option Nat) (job : Job) (events : List StorageEvent)
    (hok : _create_job cfg eid jid (d0 :: rest) eT cs wp rm ipt = .ok job events) :
    (job.data_key = none ↔
      d0.strLen * pyOrNat cs cfg.chunksize < 8 * 1204 ∧
        cfg.backend ∈ cfg.faas_backends) ∧
    (job.data_key = none →
      job.data_byte_ranges = none ∧ job.data_byte_strs = some (d0 :: rest)) ∧
    (∀ (rest₂ : List SerStr) (job₂ : Job) (events₂ : List StorageEvent),
      _create_job cfg eid jid (d0 :: rest₂) eT cs wp rm ipt = .ok job₂ events₂ →
      (job.data_key = none ↔ job₂.data_key = none)) := by
  obtain ⟨hk, hr, hs⟩ := create_job_ok_data_fields cfg eid jid d0 rest eT cs wp
    rm ipt job events hok
  have h1 : job.data_key = none ↔
      uploadData cfg d0 (pyOrNat cs cfg.chunksize) = false := by
    rw [hk]; cases uploadData cfg d0 (pyOrNat cs cfg.chunksize) <;> simp
  refine ⟨h1.trans (uploadData_eq_false_iff cfg d0 (pyOrNat cs cfg.chunksize)),
    ?_, ?_⟩
  · intro hnone
    have huD := h1.mp hnone
    rw [hr, hs, huD]
    exact ⟨rfl, rfl⟩
  · intro rest₂ job₂ events₂ hok₂
    obtain ⟨hk₂, _, _⟩ := create_job_ok_data_fields cfg eid jid d0 rest₂ eT cs
      wp rm ipt job₂ events₂ hok₂
    have h2 : job₂.data_key = none ↔
        uploadData cfg d0 (pyOrNat cs cfg.chunksize) = false := by
      rw [hk₂]; cases uploadData cfg d0 (pyOrNat cs cfg.chunksize) <;> simp
    exact h1.trans h2.symm

/-- Witness for C10: under `sampleCfg` the first element's str-length 10
times chunksize 1 is below 9632 and the backend is FaaS, so the data of the
built job is kept inline. -/
theorem create_job_inline_decision_witness :
    sampleJob.data_key = none ∧ sampleJob.data_byte_strs = some [⟨4, 10⟩] := by
  have h := create_job_inline_decision sampleCfg "abc-0".data "M000".data
    ⟨4, 10⟩ [] none none none none none sampleJob [StorageEvent.putFunc]
    (by decide)
  exact ⟨h.1.mpr (by decide), (h.2.1 (h.1.mpr (by decide))).2⟩

end Lithops
